import Mathlib

/-!
# Verification of the secp256k1 ECC core

Shallow embedding of the repository's `ecc.py`: prime-field arithmetic
(`FieldElement`), the generic Weierstrass group law (`Point`), the secp256k1
specialization (`S256Point`, SEC serialization, ECDSA verification), together
with proofs about the embedded operations.

Conventions of the embedding:

* Python integers are modelled as `Nat` (where the source guarantees
  nonnegativity) or `Int` (where a value may be negative, e.g. the argument of
  Python's `%` in `__sub__`); Python `x % m` on ints with `m > 0` agrees with
  `Int.emod`.
* Fallible code (a `raise` in Python) is modelled by `Option`: `none` means the
  Python call raises.  Each `none` branch is annotated with the exception the
  source would raise there.
* `pow(b, e, m)` (Python three-argument power, nonnegative exponent) is
  modelled by `powMod`.
-/

set_option maxRecDepth 100000

namespace ECC

/-- Binary modular exponentiation with an explicit structural fuel (the fuel
only bounds the recursion depth; it is irrelevant as long as it exceeds the
bit length of the exponent).  Models Python `pow(a, e, p)`. -/
def powModAux (fuel : Nat) (a e p : Nat) : Nat :=
  match fuel with
  | 0 => 1 % p
  | fuel' + 1 =>
    if e = 0 then 1 % p
    else
      let r := powModAux fuel' a (e / 2) p
      if e % 2 = 1 then r * r % p * (a % p) % p else r * r % p

/-- Python `pow(a, e, p)` for a nonnegative exponent `e`. -/
def powMod (a e p : Nat) : Nat := powModAux (e + 1) a e p

/-! ## `FieldElement` (ecc.py, class `FieldElement`)

A field element is the pair of its value `num` and its modulus `prime`
(source attribute names kept).  Equality (`__eq__`) is structural on both
fields, exactly as in the source. -/

structure FieldElement where
  num : Nat
  prime : Nat
deriving DecidableEq

namespace FieldElement

/-- `FieldElement.__init__`: raises `ValueError` unless `0 ≤ num < prime`.
(The value fed in by the arithmetic operations below is always a nonnegative
remainder, hence a `Nat`.) -/
def mk? (num prime : Nat) : Option FieldElement :=
  if num < prime then some ⟨num, prime⟩ else none

/-- `__add__`: raises `TypeError` when the moduli differ, otherwise
`(self.num + other.num) % prime`. -/
def add (a b : FieldElement) : Option FieldElement :=
  if a.prime ≠ b.prime then none
  else mk? ((a.num + b.num) % a.prime) a.prime

/-- `__sub__`: raises `TypeError` when the moduli differ, otherwise
`(self.num - other.num) % prime` (Python `%` on a possibly negative
difference, hence `Int.emod`). -/
def sub (a b : FieldElement) : Option FieldElement :=
  if a.prime ≠ b.prime then none
  else mk? (((a.num : Int) - (b.num : Int)) % (a.prime : Int)).toNat a.prime

/-- `__mul__`: raises `TypeError` when the moduli differ, otherwise
`(self.num * other.num) % prime`. -/
def mul (a b : FieldElement) : Option FieldElement :=
  if a.prime ≠ b.prime then none
  else mk? (a.num * b.num % a.prime) a.prime

/-- `__rmul__` (scalar multiplication by a plain integer coefficient):
`(self.num * coefficient) % prime`; no modulus-compatibility check since the
coefficient is not a field element. -/
def rmul (coefficient : Int) (a : FieldElement) : Option FieldElement :=
  mk? (((a.num : Int) * coefficient) % (a.prime : Int)).toNat a.prime

/-- `__pow__`: `n = exponent % (prime - 1)`; then `pow(num, n, prime)`.
For `prime ≤ 1` the source raises (`ZeroDivisionError` from `% 0` when
`prime = 1`, `ValueError` from `pow(_, _, 0)` when `prime = 0`). -/
def pow (a : FieldElement) (exponent : Int) : Option FieldElement :=
  if a.prime ≤ 1 then none
  else
    mk? (powMod a.num (exponent % ((a.prime : Int) - 1)).toNat a.prime) a.prime

/-- `__truediv__`: raises `TypeError` when the moduli differ, otherwise
`(self.num * pow(other.num, other.prime - 2, other.prime)) % prime`
(Fermat inverse; no check that the divisor is nonzero). -/
def div (a b : FieldElement) : Option FieldElement :=
  if a.prime ≠ b.prime then none
  else mk? (a.num * powMod b.num (b.prime - 2) b.prime % a.prime) a.prime

/-- The representation invariant established by `__init__`. -/
def valid (a : FieldElement) : Prop := a.num < a.prime

instance (a : FieldElement) : Decidable a.valid := by
  unfold valid
  infer_instance

end FieldElement

/-! ## `Point` (ecc.py, class `Point`)

A curve point carries optional coordinates (`None`/`None` is the point at
infinity) together with the curve coefficients `a` and `b`.  Equality
(`__eq__`) is structural on all four fields, as in the source. -/

structure Point where
  x : Option FieldElement
  y : Option FieldElement
  a : FieldElement
  b : FieldElement
deriving DecidableEq

namespace Point

/-- `Point.__init__`: returns immediately when both coordinates are absent
(the identity); otherwise evaluates `self.y**2 != self.x**3 + self.a*self.x +
self.b` with the field operations (raising `ValueError` when the equation
fails, and propagating any `TypeError`/`ZeroDivisionError` the field
operations raise).  A point with exactly one absent coordinate makes
`self.y ** 2` an attribute error in Python; modelled as `none`. -/
def mk? (x y : Option FieldElement) (a b : FieldElement) : Option Point :=
  match x, y with
  | none, none => some ⟨none, none, a, b⟩
  | some xf, some yf => do
    let lhs ← yf.pow 2
    let x3 ← xf.pow 3
    let ax ← a.mul xf
    let rhs1 ← x3.add ax
    let rhs ← rhs1.add b
    if lhs = rhs then some ⟨some xf, some yf, a, b⟩ else none
  | _, _ => none

/-- `Point.__add__`, branch for branch.  `none` models the `TypeError` on a
curve mismatch, any exception propagated from the field arithmetic, and the
implicit `None` Python returns if no branch fires (unreachable). -/
def add (p q : Point) : Option Point :=
  if p.a ≠ q.a ∨ p.b ≠ q.b then none
  else
    match p.x with
    | none => some q
    | some px =>
      match q.x with
      | none => some p
      | some qx =>
        match p.y, q.y with
        | some py, some qy =>
          if px = qx ∧ py ≠ qy then some ⟨none, none, p.a, p.b⟩
          else if px ≠ qx then do
            let n1 ← qy.sub py
            let d1 ← qx.sub px
            let s ← n1.div d1
            let s2 ← s.mul s
            let t1 ← s2.sub px
            let x3 ← t1.sub qx
            let t2 ← px.sub x3
            let t3 ← s.mul t2
            let y3 ← t3.sub py
            mk? (some x3) (some y3) p.a p.b
          else if p = q then do
            let zero ← FieldElement.rmul 0 px
            if py = zero then some ⟨none, none, p.a, p.b⟩
            else do
              let tx ← FieldElement.rmul 3 px
              let txx ← tx.mul px
              let numer ← txx.add p.a
              let denom ← FieldElement.rmul 2 py
              let s ← numer.div denom
              let s2 ← s.mul s
              let dx ← FieldElement.rmul 2 px
              let x3 ← s2.sub dx
              let t2 ← px.sub x3
              let t3 ← s.mul t2
              let y3 ← t3.sub py
              mk? (some x3) (some y3) p.a p.b
          else none
        | _, _ => none

/-- The body of `Point.__rmul__`: binary double-and-add.  `fuel` is a
structural bound on the recursion depth (any value above the coefficient's
bit length gives the loop's semantics); the loop itself runs until `coef`
is exhausted. -/
def rmulAux (fuel : Nat) (coef : Nat) (current result : Point) : Option Point :=
  match fuel with
  | 0 => if coef = 0 then some result else none
  | fuel' + 1 =>
    if coef = 0 then some result
    else do
      let result' ← if coef % 2 = 1 then add result current else pure result
      let current' ← add current current
      rmulAux fuel' (coef / 2) current' result'

/-- `Point.__rmul__` for a nonnegative coefficient (the only way the source
invokes it: the secp256k1 subclass first reduces the coefficient modulo the
group order).  `result` starts at `self.__class__(None, None, self.a,
self.b)`, the identity on the same curve. -/
def rmul (coefficient : Nat) (p : Point) : Option Point :=
  rmulAux (coefficient + 1) coefficient p ⟨none, none, p.a, p.b⟩

end Point

/-! ## secp256k1 constants and `S256Field` / `S256Point` (ecc.py) -/

/-- The field prime `P = 2**256 - 2**32 - 977`. -/
def P : Nat := 2 ^ 256 - 2 ^ 32 - 977

/-- Curve coefficient `A = 0`. -/
def A : Nat := 0

/-- Curve coefficient `B = 7`. -/
def B : Nat := 7

/-- The group order `N`. -/
def N : Nat := 0xfffffffffffffffffffffffffffffffebaaedce6af48a03bbfd25e8cd0364141

/-- `S256Field.__init__`: a `FieldElement` with the prime fixed to `P`. -/
def S256Field.mk? (num : Nat) : Option FieldElement :=
  FieldElement.mk? num P

/-- `S256Field.sqrt`: `self ** ((P + 1) // 4)`. -/
def S256Field.sqrt (a : FieldElement) : Option FieldElement :=
  a.pow (((P + 1) / 4 : Nat) : Int)

/-- The coefficient `S256Field(A)` built by `S256Point.__init__`
(the range check `A < P` trivially passes). -/
def s256A : FieldElement := ⟨A, P⟩

/-- The coefficient `S256Field(B)` built by `S256Point.__init__`. -/
def s256B : FieldElement := ⟨B, P⟩

/-- `S256Point.__init__` on the `type(x) == int` branch: wraps both
coordinates in `S256Field` (range check against `P`) and validates the curve
equation. -/
def S256Point.mkFromNums? (x y : Nat) : Option Point := do
  let xf ← S256Field.mk? x
  let yf ← S256Field.mk? y
  Point.mk? (some xf) (some yf) s256A s256B

/-- `S256Point.__init__` on the other branch: coordinates are passed through
(already `S256Field`s, or `None` for the identity). -/
def S256Point.mkFromFields? (x y : Option FieldElement) : Option Point :=
  Point.mk? x y s256A s256B

/-- `S256Point.__rmul__`: `coef = coefficient % N`, then the generic
double-and-add. -/
def S256Point.rmul (coefficient : Int) (p : Point) : Option Point :=
  Point.rmul (coefficient % (N : Int)).toNat p

/-- x-coordinate of the generator. -/
def Gx : Nat := 0x79be667ef9dcbbac55a06295ce870b07029bfcdb2dce28d959f2815b16f81798

/-- y-coordinate of the generator. -/
def Gy : Nat := 0x483ada7726a3c4655da4fbfc0e1108a8fd17b448a68554199c47d08ffb10d4b8

/-- The generator `G` (the value `S256Point(Gx, Gy)` constructs; see
`G_def` below for the proof that the validated constructor produces it). -/
def G : Point := ⟨some ⟨Gx, P⟩, some ⟨Gy, P⟩, s256A, s256B⟩

/-- The point at infinity on the secp256k1 curve:
`S256Point(None, None)`. -/
def s256Identity : Point := ⟨none, none, s256A, s256B⟩

/-! ## Byte strings

SEC byte strings are modelled as `List Nat` (each entry one byte). -/

/-- Big-endian fixed-width encoding, the value of Python
`n.to_bytes(len, "big")` when it does not overflow. -/
def toBytesBE (n len : Nat) : List Nat :=
  match len with
  | 0 => []
  | len' + 1 => toBytesBE (n / 256) len' ++ [n % 256]

/-- Python `n.to_bytes(len, "big")`: raises `OverflowError` when `n` does not
fit. -/
def toBytesBE? (n len : Nat) : Option (List Nat) :=
  if n < 256 ^ len then some (toBytesBE n len) else none

/-- Python `int.from_bytes(l, "big")`. -/
def fromBytesBE (l : List Nat) : Nat :=
  l.foldl (fun acc b => acc * 256 + b) 0

/-- `S256Point.sec`: compressed form reads `self.y.num` (parity) and
`self.x.num`; uncompressed reads both coordinates.  On the identity the
attribute access `self.y.num` / `self.x.num` raises (`AttributeError`),
modelled as `none`. -/
def S256Point.sec (p : Point) (compressed : Bool) : Option (List Nat) :=
  if compressed then
    match p.y with
    | none => none
    | some yf =>
      match p.x with
      | none => none
      | some xf =>
        if yf.num % 2 = 0 then do
          let xb ← toBytesBE? xf.num 32
          pure (2 :: xb)
        else do
          let xb ← toBytesBE? xf.num 32
          pure (3 :: xb)
  else
    match p.x, p.y with
    | some xf, some yf => do
      let xb ← toBytesBE? xf.num 32
      let yb ← toBytesBE? yf.num 32
      pure (4 :: (xb ++ yb))
    | _, _ => none

/-- `S256Point.parse`, branch for branch.  An empty input raises
(`IndexError` on `sec_bin[0]`); a leading `4` reads the two 32-byte slices;
any other leading byte takes the compressed branch with
`is_even = sec_bin[0] == 2`, computes `alpha = x**3 + S256Field(B)`,
`beta = alpha.sqrt()`, builds both parity roots eagerly (note
`S256Field(P - beta.num)` raises when `beta.num = 0`), and selects by
parity. -/
def S256Point.parse (sec_bin : List Nat) : Option Point :=
  match sec_bin with
  | [] => none
  | b0 :: rest =>
    if b0 = 4 then do
      let x := fromBytesBE (rest.take 32)
      let y := fromBytesBE ((rest.drop 32).take 32)
      S256Point.mkFromNums? x y
    else do
      let xf ← S256Field.mk? (fromBytesBE rest)
      let x3 ← xf.pow 3
      let bf ← S256Field.mk? B
      let alpha ← x3.add bf
      let beta ← S256Field.sqrt alpha
      let roots ←
        if beta.num % 2 = 0 then do
          let ob ← S256Field.mk? (P - beta.num)
          pure (beta, ob)
        else do
          let eb ← S256Field.mk? (P - beta.num)
          pure (eb, beta)
      if b0 = 2 then S256Point.mkFromFields? (some xf) (some roots.1)
      else S256Point.mkFromFields? (some xf) (some roots.2)

/-- `Signature`: the `(r, s)` pair.  The source never range-checks the
components; the values the claims quantify over are nonnegative. -/
structure Signature where
  r : Nat
  s : Nat
deriving DecidableEq

/-- The point `total = u * G + v * self` computed inside
`S256Point.verify`, with `s_inv = pow(sig.s, N - 2, N)`,
`u = z * s_inv % N` and `v = r * s_inv % N`. -/
def S256Point.verifyTotal (p : Point) (z : Nat) (sig : Signature) : Option Point := do
  let s_inv := powMod sig.s (N - 2) N
  let u := z * s_inv % N
  let v := sig.r * s_inv % N
  let uG ← S256Point.rmul (u : Int) G
  let vP ← S256Point.rmul (v : Int) p
  Point.add uG vP

/-- `S256Point.verify`: returns `total.x.num == sig.r`.  When `total` is the
identity, `total.x` is `None` and the attribute access `total.x.num` raises
(`AttributeError`), modelled as `none`. -/
def S256Point.verify (p : Point) (z : Nat) (sig : Signature) : Option Bool := do
  let total ← S256Point.verifyTotal p z sig
  match total.x with
  | none => none
  | some xf => pure (xf.num == sig.r)

/-- The low-s normalization step at the end of `PrivateKey.sign`: in the
source, `if s > N / 2: s = N - s`.  Python's `/` on ints is float division;
`float(N)` rounds to `2**256` (the 53-bit mantissa cannot hold the low bits
of `N`, whose top 128 bits are all ones), so `N / 2` is exactly the float
`2**255`, and the int-vs-float comparison Python performs is exact.  The
comparison the source executes is therefore exactly `s > 2**255`. -/
def signNormalizeS (s : Nat) : Nat :=
  if 2 ^ 255 < s then N - s else s

/-! ## Basic lemmas about `powMod` -/

theorem powModAux_eq (fuel a e p : Nat) (h : e < fuel) :
    powModAux fuel a e p = a ^ e % p := by
  induction fuel generalizing e with
  | zero => omega
  | succ fuel' ih =>
    rw [powModAux]
    by_cases he : e = 0
    · simp [he]
    · have h2 : e / 2 < fuel' := by omega
      rw [if_neg he, ih (e / 2) h2]
      have hsplit : a ^ e = a ^ (e / 2) * a ^ (e / 2) * a ^ (e % 2) := by
        rw [← pow_add, ← pow_add]
        congr 1
        omega
      by_cases hodd : e % 2 = 1
      · rw [if_pos hodd, hsplit, hodd, pow_one,
          Nat.mul_mod (a ^ (e / 2) * a ^ (e / 2)) a,
          Nat.mul_mod (a ^ (e / 2)) (a ^ (e / 2))]
      · have hev : e % 2 = 0 := by omega
        rw [if_neg hodd, hsplit, hev, pow_zero, mul_one,
          Nat.mul_mod (a ^ (e / 2)) (a ^ (e / 2))]

theorem powMod_eq (a e p : Nat) : powMod a e p = a ^ e % p :=
  powModAux_eq (e + 1) a e p (Nat.lt_succ_self e)

theorem powMod_lt (a e : Nat) {p : Nat} (hp : 0 < p) : powMod a e p < p := by
  rw [powMod_eq]
  exact Nat.mod_lt _ hp

/-! ## Bridge between `powMod` and `ZMod`, and a Pratt-style certificate
checker built on Mathlib's `lucas_primality`.  These are used to establish
that the secp256k1 field modulus is prime, which the round-trip proof of the
SEC codec depends on (Fermat inverses and square roots). -/

theorem zmod_pow_natCast (p : ℕ) [NeZero p] (a e : ℕ) :
    ((a : ZMod p)) ^ e = ((powMod a e p : ℕ) : ZMod p) := by
  rw [powMod_eq, ZMod.natCast_mod, Nat.cast_pow]

theorem zmod_pow_eq_one (p a e : ℕ) (hp : 1 < p) (h : powMod a e p = 1) :
    ((a : ZMod p)) ^ e = 1 := by
  haveI : NeZero p := ⟨by omega⟩
  rw [zmod_pow_natCast, h, Nat.cast_one]

theorem zmod_pow_ne_one (p a e : ℕ) (hp : 1 < p) (h : powMod a e p ≠ 1) :
    ((a : ZMod p)) ^ e ≠ 1 := by
  haveI : NeZero p := ⟨by omega⟩
  haveI : Fact (1 < p) := ⟨hp⟩
  rw [zmod_pow_natCast]
  intro hc
  apply h
  have hv := congrArg ZMod.val hc
  rwa [ZMod.val_natCast_of_lt (powMod_lt _ _ (by omega)), ZMod.val_one] at hv

theorem lucas_cert (p g : ℕ) (hp : 1 < p) (qs : List ℕ)
    (hall : ∀ q : ℕ, q.Prime → q ∣ p - 1 → q ∈ qs)
    (hone : powMod g (p - 1) p = 1)
    (hne : ∀ q ∈ qs, powMod g ((p - 1) / q) p ≠ 1) : p.Prime :=
  lucas_primality p ((g : ℕ) : ZMod p) (zmod_pow_eq_one p g (p - 1) hp hone)
    (fun q hq hdvd => zmod_pow_ne_one p g ((p - 1) / q) hp (hne q (hall q hq hdvd)))


/-! ## Primality of the secp256k1 field modulus `P`

A Pratt-style certificate chain, checked with `lucas_cert`. -/

/-- Pratt/Lucas certificate node: `1206781` is prime (witness `10`). -/
theorem prime_1206781 : Nat.Prime 1206781 := by
  apply lucas_cert 1206781 10 (by norm_num) [2, 3, 5, 20113]
  · intro q hq hdvd
    have heq : (1206781 : ℕ) - 1 = 2 * (2 * (3 * (5 * (20113)))) := by norm_num
    rw [heq] at hdvd
    rcases hq.dvd_mul.mp hdvd with h | hdvd
    · obtain rfl := (Nat.prime_dvd_prime_iff_eq hq (by norm_num : Nat.Prime 2)).mp h
      decide
    rcases hq.dvd_mul.mp hdvd with h | hdvd
    · obtain rfl := (Nat.prime_dvd_prime_iff_eq hq (by norm_num : Nat.Prime 2)).mp h
      decide
    rcases hq.dvd_mul.mp hdvd with h | hdvd
    · obtain rfl := (Nat.prime_dvd_prime_iff_eq hq (by norm_num : Nat.Prime 3)).mp h
      decide
    rcases hq.dvd_mul.mp hdvd with h | hdvd
    · obtain rfl := (Nat.prime_dvd_prime_iff_eq hq (by norm_num : Nat.Prime 5)).mp h
      decide
    obtain rfl := (Nat.prime_dvd_prime_iff_eq hq (by norm_num : Nat.Prime 20113)).mp hdvd
    decide
  · decide
  · intro q hqm
    simp only [List.mem_cons, List.not_mem_nil, or_false] at hqm
    rcases hqm with rfl | rfl | rfl | rfl <;> decide

/-- Pratt/Lucas certificate node: `7240687` is prime (witness `3`). -/
theorem prime_7240687 : Nat.Prime 7240687 := by
  apply lucas_cert 7240687 3 (by norm_num) [2, 3, 1206781]
  · intro q hq hdvd
    have heq : (7240687 : ℕ) - 1 = 2 * (3 * (1206781)) := by norm_num
    rw [heq] at hdvd
    rcases hq.dvd_mul.mp hdvd with h | hdvd
    · obtain rfl := (Nat.prime_dvd_prime_iff_eq hq (by norm_num : Nat.Prime 2)).mp h
      decide
    rcases hq.dvd_mul.mp hdvd with h | hdvd
    · obtain rfl := (Nat.prime_dvd_prime_iff_eq hq (by norm_num : Nat.Prime 3)).mp h
      decide
    obtain rfl := (Nat.prime_dvd_prime_iff_eq hq prime_1206781).mp hdvd
    decide
  · decide
  · intro q hqm
    simp only [List.mem_cons, List.not_mem_nil, or_false] at hqm
    rcases hqm with rfl | rfl | rfl <;> decide

/-- Pratt/Lucas certificate node: `13331831` is prime (witness `13`). -/
theorem prime_13331831 : Nat.Prime 13331831 := by
  apply lucas_cert 13331831 13 (by norm_num) [2, 5, 971, 1373]
  · intro q hq hdvd
    have heq : (13331831 : ℕ) - 1 = 2 * (5 * (971 * (1373))) := by norm_num
    rw [heq] at hdvd
    rcases hq.dvd_mul.mp hdvd with h | hdvd
    · obtain rfl := (Nat.prime_dvd_prime_iff_eq hq (by norm_num : Nat.Prime 2)).mp h
      decide
    rcases hq.dvd_mul.mp hdvd with h | hdvd
    · obtain rfl := (Nat.prime_dvd_prime_iff_eq hq (by norm_num : Nat.Prime 5)).mp h
      decide
    rcases hq.dvd_mul.mp hdvd with h | hdvd
    · obtain rfl := (Nat.prime_dvd_prime_iff_eq hq (by norm_num : Nat.Prime 971)).mp h
      decide
    obtain rfl := (Nat.prime_dvd_prime_iff_eq hq (by norm_num : Nat.Prime 1373)).mp hdvd
    decide
  · decide
  · intro q hqm
    simp only [List.mem_cons, List.not_mem_nil, or_false] at hqm
    rcases hqm with rfl | rfl | rfl | rfl <;> decide

/-- Pratt/Lucas certificate node: `107590001` is prime (witness `3`). -/
theorem prime_107590001 : Nat.Prime 107590001 := by
  apply lucas_cert 107590001 3 (by norm_num) [2, 5, 7, 29, 53]
  · intro q hq hdvd
    have heq : (107590001 : ℕ) - 1 = 2 * (2 * (2 * (2 * (5 * (5 * (5 * (5 * (7 * (29 * (53)))))))))) := by norm_num
    rw [heq] at hdvd
    rcases hq.dvd_mul.mp hdvd with h | hdvd
    · obtain rfl := (Nat.prime_dvd_prime_iff_eq hq (by norm_num : Nat.Prime 2)).mp h
      decide
    rcases hq.dvd_mul.mp hdvd with h | hdvd
    · obtain rfl := (Nat.prime_dvd_prime_iff_eq hq (by norm_num : Nat.Prime 2)).mp h
      decide
    rcases hq.dvd_mul.mp hdvd with h | hdvd
    · obtain rfl := (Nat.prime_dvd_prime_iff_eq hq (by norm_num : Nat.Prime 2)).mp h
      decide
    rcases hq.dvd_mul.mp hdvd with h | hdvd
    · obtain rfl := (Nat.prime_dvd_prime_iff_eq hq (by norm_num : Nat.Prime 2)).mp h
      decide
    rcases hq.dvd_mul.mp hdvd with h | hdvd
    · obtain rfl := (Nat.prime_dvd_prime_iff_eq hq (by norm_num : Nat.Prime 5)).mp h
      decide
    rcases hq.dvd_mul.mp hdvd with h | hdvd
    · obtain rfl := (Nat.prime_dvd_prime_iff_eq hq (by norm_num : Nat.Prime 5)).mp h
      decide
    rcases hq.dvd_mul.mp hdvd with h | hdvd
    · obtain rfl := (Nat.prime_dvd_prime_iff_eq hq (by norm_num : Nat.Prime 5)).mp h
      decide
    rcases hq.dvd_mul.mp hdvd with h | hdvd
    · obtain rfl := (Nat.prime_dvd_prime_iff_eq hq (by norm_num : Nat.Prime 5)).mp h
      decide
    rcases hq.dvd_mul.mp hdvd with h | hdvd
    · obtain rfl := (Nat.prime_dvd_prime_iff_eq hq (by norm_num : Nat.Prime 7)).mp h
      decide
    rcases hq.dvd_mul.mp hdvd with h | hdvd
    · obtain rfl := (Nat.prime_dvd_prime_iff_eq hq (by norm_num : Nat.Prime 29)).mp h
      decide
    obtain rfl := (Nat.prime_dvd_prime_iff_eq hq (by norm_num : Nat.Prime 53)).mp hdvd
    decide
  · decide
  · intro q hqm
    simp only [List.mem_cons, List.not_mem_nil, or_false] at hqm
    rcases hqm with rfl | rfl | rfl | rfl | rfl <;> decide

/-- Pratt/Lucas certificate node: `173378833005251801` is prime (witness `6`). -/
theorem prime_173378833005251801 : Nat.Prime 173378833005251801 := by
  apply lucas_cert 173378833005251801 6 (by norm_num) [2, 5, 2621, 24809, 13331831]
  · intro q hq hdvd
    have heq : (173378833005251801 : ℕ) - 1 = 2 * (2 * (2 * (5 * (5 * (2621 * (24809 * (13331831))))))) := by norm_num
    rw [heq] at hdvd
    rcases hq.dvd_mul.mp hdvd with h | hdvd
    · obtain rfl := (Nat.prime_dvd_prime_iff_eq hq (by norm_num : Nat.Prime 2)).mp h
      decide
    rcases hq.dvd_mul.mp hdvd with h | hdvd
    · obtain rfl := (Nat.prime_dvd_prime_iff_eq hq (by norm_num : Nat.Prime 2)).mp h
      decide
    rcases hq.dvd_mul.mp hdvd with h | hdvd
    · obtain rfl := (Nat.prime_dvd_prime_iff_eq hq (by norm_num : Nat.Prime 2)).mp h
      decide
    rcases hq.dvd_mul.mp hdvd with h | hdvd
    · obtain rfl := (Nat.prime_dvd_prime_iff_eq hq (by norm_num : Nat.Prime 5)).mp h
      decide
    rcases hq.dvd_mul.mp hdvd with h | hdvd
    · obtain rfl := (Nat.prime_dvd_prime_iff_eq hq (by norm_num : Nat.Prime 5)).mp h
      decide
    rcases hq.dvd_mul.mp hdvd with h | hdvd
    · obtain rfl := (Nat.prime_dvd_prime_iff_eq hq (by norm_num : Nat.Prime 2621)).mp h
      decide
    rcases hq.dvd_mul.mp hdvd with h | hdvd
    · obtain rfl := (Nat.prime_dvd_prime_iff_eq hq (by norm_num : Nat.Prime 24809)).mp h
      decide
    obtain rfl := (Nat.prime_dvd_prime_iff_eq hq prime_13331831).mp hdvd
    decide
  · decide
  · intro q hqm
    simp only [List.mem_cons, List.not_mem_nil, or_false] at hqm
    rcases hqm with rfl | rfl | rfl | rfl | rfl <;> decide

/-- Pratt/Lucas certificate node: `22149492674086928081353` is prime (witness `5`). -/
theorem prime_22149492674086928081353 : Nat.Prime 22149492674086928081353 := by
  apply lucas_cert 22149492674086928081353 5 (by norm_num) [2, 3, 5323, 173378833005251801]
  · intro q hq hdvd
    have heq : (22149492674086928081353 : ℕ) - 1 = 2 * (2 * (2 * (3 * (5323 * (173378833005251801))))) := by norm_num
    rw [heq] at hdvd
    rcases hq.dvd_mul.mp hdvd with h | hdvd
    · obtain rfl := (Nat.prime_dvd_prime_iff_eq hq (by norm_num : Nat.Prime 2)).mp h
      decide
    rcases hq.dvd_mul.mp hdvd with h | hdvd
    · obtain rfl := (Nat.prime_dvd_prime_iff_eq hq (by norm_num : Nat.Prime 2)).mp h
      decide
    rcases hq.dvd_mul.mp hdvd with h | hdvd
    · obtain rfl := (Nat.prime_dvd_prime_iff_eq hq (by norm_num : Nat.Prime 2)).mp h
      decide
    rcases hq.dvd_mul.mp hdvd with h | hdvd
    · obtain rfl := (Nat.prime_dvd_prime_iff_eq hq (by norm_num : Nat.Prime 3)).mp h
      decide
    rcases hq.dvd_mul.mp hdvd with h | hdvd
    · obtain rfl := (Nat.prime_dvd_prime_iff_eq hq (by norm_num : Nat.Prime 5323)).mp h
      decide
    obtain rfl := (Nat.prime_dvd_prime_iff_eq hq prime_173378833005251801).mp hdvd
    decide
  · decide
  · intro q hqm
    simp only [List.mem_cons, List.not_mem_nil, or_false] at hqm
    rcases hqm with rfl | rfl | rfl | rfl <;> decide

/-- Pratt/Lucas certificate node: `132896956044521568488119` is prime (witness `6`). -/
theorem prime_132896956044521568488119 : Nat.Prime 132896956044521568488119 := by
  apply lucas_cert 132896956044521568488119 6 (by norm_num) [2, 3, 22149492674086928081353]
  · intro q hq hdvd
    have heq : (132896956044521568488119 : ℕ) - 1 = 2 * (3 * (22149492674086928081353)) := by norm_num
    rw [heq] at hdvd
    rcases hq.dvd_mul.mp hdvd with h | hdvd
    · obtain rfl := (Nat.prime_dvd_prime_iff_eq hq (by norm_num : Nat.Prime 2)).mp h
      decide
    rcases hq.dvd_mul.mp hdvd with h | hdvd
    · obtain rfl := (Nat.prime_dvd_prime_iff_eq hq (by norm_num : Nat.Prime 3)).mp h
      decide
    obtain rfl := (Nat.prime_dvd_prime_iff_eq hq prime_22149492674086928081353).mp hdvd
    decide
  · decide
  · intro q hqm
    simp only [List.mem_cons, List.not_mem_nil, or_false] at hqm
    rcases hqm with rfl | rfl | rfl <;> decide

/-- Pratt/Lucas certificate node: `255515944373312847190720520512484175977` is prime (witness `3`). -/
theorem prime_255515944373312847190720520512484175977 : Nat.Prime 255515944373312847190720520512484175977 := by
  apply lucas_cert 255515944373312847190720520512484175977 3 (by norm_num) [2, 7, 11, 1627, 2657, 4423, 41201, 96557, 7240687, 107590001]
  · intro q hq hdvd
    have heq : (255515944373312847190720520512484175977 : ℕ) - 1 = 2 * (2 * (2 * (7 * (7 * (11 * (1627 * (2657 * (4423 * (41201 * (96557 * (7240687 * (107590001)))))))))))) := by norm_num
    rw [heq] at hdvd
    rcases hq.dvd_mul.mp hdvd with h | hdvd
    · obtain rfl := (Nat.prime_dvd_prime_iff_eq hq (by norm_num : Nat.Prime 2)).mp h
      decide
    rcases hq.dvd_mul.mp hdvd with h | hdvd
    · obtain rfl := (Nat.prime_dvd_prime_iff_eq hq (by norm_num : Nat.Prime 2)).mp h
      decide
    rcases hq.dvd_mul.mp hdvd with h | hdvd
    · obtain rfl := (Nat.prime_dvd_prime_iff_eq hq (by norm_num : Nat.Prime 2)).mp h
      decide
    rcases hq.dvd_mul.mp hdvd with h | hdvd
    · obtain rfl := (Nat.prime_dvd_prime_iff_eq hq (by norm_num : Nat.Prime 7)).mp h
      decide
    rcases hq.dvd_mul.mp hdvd with h | hdvd
    · obtain rfl := (Nat.prime_dvd_prime_iff_eq hq (by norm_num : Nat.Prime 7)).mp h
      decide
    rcases hq.dvd_mul.mp hdvd with h | hdvd
    · obtain rfl := (Nat.prime_dvd_prime_iff_eq hq (by norm_num : Nat.Prime 11)).mp h
      decide
    rcases hq.dvd_mul.mp hdvd with h | hdvd
    · obtain rfl := (Nat.prime_dvd_prime_iff_eq hq (by norm_num : Nat.Prime 1627)).mp h
      decide
    rcases hq.dvd_mul.mp hdvd with h | hdvd
    · obtain rfl := (Nat.prime_dvd_prime_iff_eq hq (by norm_num : Nat.Prime 2657)).mp h
      decide
    rcases hq.dvd_mul.mp hdvd with h | hdvd
    · obtain rfl := (Nat.prime_dvd_prime_iff_eq hq (by norm_num : Nat.Prime 4423)).mp h
      decide
    rcases hq.dvd_mul.mp hdvd with h | hdvd
    · obtain rfl := (Nat.prime_dvd_prime_iff_eq hq (by norm_num : Nat.Prime 41201)).mp h
      decide
    rcases hq.dvd_mul.mp hdvd with h | hdvd
    · obtain rfl := (Nat.prime_dvd_prime_iff_eq hq (by norm_num : Nat.Prime 96557)).mp h
      decide
    rcases hq.dvd_mul.mp hdvd with h | hdvd
    · obtain rfl := (Nat.prime_dvd_prime_iff_eq hq prime_7240687).mp h
      decide
    obtain rfl := (Nat.prime_dvd_prime_iff_eq hq prime_107590001).mp hdvd
    decide
  · decide
  · intro q hqm
    simp only [List.mem_cons, List.not_mem_nil, or_false] at hqm
    rcases hqm with rfl | rfl | rfl | rfl | rfl | rfl | rfl | rfl | rfl | rfl <;> decide

/-- Pratt/Lucas certificate node: `205115282021455665897114700593932402728804164701536103180137503955397371` is prime (witness `10`). -/
theorem prime_205115282021455665897114700593932402728804164701536103180137503955397371 : Nat.Prime 205115282021455665897114700593932402728804164701536103180137503955397371 := by
  apply lucas_cert 205115282021455665897114700593932402728804164701536103180137503955397371 10 (by norm_num) [2, 3, 5, 29, 31, 7723, 132896956044521568488119, 255515944373312847190720520512484175977]
  · intro q hq hdvd
    have heq : (205115282021455665897114700593932402728804164701536103180137503955397371 : ℕ) - 1 = 2 * (3 * (5 * (29 * (29 * (31 * (7723 * (132896956044521568488119 * (255515944373312847190720520512484175977)))))))) := by norm_num
    rw [heq] at hdvd
    rcases hq.dvd_mul.mp hdvd with h | hdvd
    · obtain rfl := (Nat.prime_dvd_prime_iff_eq hq (by norm_num : Nat.Prime 2)).mp h
      decide
    rcases hq.dvd_mul.mp hdvd with h | hdvd
    · obtain rfl := (Nat.prime_dvd_prime_iff_eq hq (by norm_num : Nat.Prime 3)).mp h
      decide
    rcases hq.dvd_mul.mp hdvd with h | hdvd
    · obtain rfl := (Nat.prime_dvd_prime_iff_eq hq (by norm_num : Nat.Prime 5)).mp h
      decide
    rcases hq.dvd_mul.mp hdvd with h | hdvd
    · obtain rfl := (Nat.prime_dvd_prime_iff_eq hq (by norm_num : Nat.Prime 29)).mp h
      decide
    rcases hq.dvd_mul.mp hdvd with h | hdvd
    · obtain rfl := (Nat.prime_dvd_prime_iff_eq hq (by norm_num : Nat.Prime 29)).mp h
      decide
    rcases hq.dvd_mul.mp hdvd with h | hdvd
    · obtain rfl := (Nat.prime_dvd_prime_iff_eq hq (by norm_num : Nat.Prime 31)).mp h
      decide
    rcases hq.dvd_mul.mp hdvd with h | hdvd
    · obtain rfl := (Nat.prime_dvd_prime_iff_eq hq (by norm_num : Nat.Prime 7723)).mp h
      decide
    rcases hq.dvd_mul.mp hdvd with h | hdvd
    · obtain rfl := (Nat.prime_dvd_prime_iff_eq hq prime_132896956044521568488119).mp h
      decide
    obtain rfl := (Nat.prime_dvd_prime_iff_eq hq prime_255515944373312847190720520512484175977).mp hdvd
    decide
  · decide
  · intro q hqm
    simp only [List.mem_cons, List.not_mem_nil, or_false] at hqm
    rcases hqm with rfl | rfl | rfl | rfl | rfl | rfl | rfl | rfl <;> decide

/-- Pratt/Lucas certificate node: `P` is prime (witness `3`). -/
theorem P_prime : Nat.Prime P := by
  apply lucas_cert P 3 (by norm_num [P]) [2, 3, 7, 13441, 205115282021455665897114700593932402728804164701536103180137503955397371]
  · intro q hq hdvd
    have heq : (P : ℕ) - 1 = 2 * (3 * (7 * (13441 * (205115282021455665897114700593932402728804164701536103180137503955397371)))) := by norm_num [P]
    rw [heq] at hdvd
    rcases hq.dvd_mul.mp hdvd with h | hdvd
    · obtain rfl := (Nat.prime_dvd_prime_iff_eq hq (by norm_num : Nat.Prime 2)).mp h
      decide
    rcases hq.dvd_mul.mp hdvd with h | hdvd
    · obtain rfl := (Nat.prime_dvd_prime_iff_eq hq (by norm_num : Nat.Prime 3)).mp h
      decide
    rcases hq.dvd_mul.mp hdvd with h | hdvd
    · obtain rfl := (Nat.prime_dvd_prime_iff_eq hq (by norm_num : Nat.Prime 7)).mp h
      decide
    rcases hq.dvd_mul.mp hdvd with h | hdvd
    · obtain rfl := (Nat.prime_dvd_prime_iff_eq hq (by norm_num : Nat.Prime 13441)).mp h
      decide
    obtain rfl := (Nat.prime_dvd_prime_iff_eq hq prime_205115282021455665897114700593932402728804164701536103180137503955397371).mp hdvd
    decide
  · decide
  · intro q hqm
    simp only [List.mem_cons, List.not_mem_nil, or_false] at hqm
    rcases hqm with rfl | rfl | rfl | rfl | rfl <;> decide

/-! ## Generic facts about the embedded operations -/

/-- Sanity check: the module-level constant `G = S256Point(Gx, Gy)` passes the
constructor's curve-equation validation and produces exactly the `G` of this
file. -/
theorem G_def : S256Point.mkFromNums? Gx Gy = some G := by decide

theorem mk?_of_lt {n p : Nat} (h : n < p) :
    FieldElement.mk? n p = some ⟨n, p⟩ := by
  simp [FieldElement.mk?, h]

theorem emod_toNat_lt (x : Int) {p : Nat} (hp : 0 < p) :
    ((x % (p : Int)).toNat) < p := by
  have hne : (p : Int) ≠ 0 := by
    exact_mod_cast Nat.pos_iff_ne_zero.mp hp
  have h1 : 0 ≤ x % (p : Int) := Int.emod_nonneg x hne
  have h2 : x % (p : Int) < (p : Int) := Int.emod_lt_of_pos x (by exact_mod_cast hp)
  omega

/-- Claim C7: the point at infinity (both coordinates absent, on the same
curve) is the neutral element of `Point.__add__`: `identity + Q = Q` and
`P + identity = P`.  The hypothesis (no lone `y` coordinate) is implied by
the constructor invariant; validity of the coordinates is not needed. -/
theorem point_add_identity_neutral (q : Point) (hq : q.x = none → q.y = none) :
    Point.add ⟨none, none, q.a, q.b⟩ q = some q ∧
    Point.add q ⟨none, none, q.a, q.b⟩ = some q := by
  constructor
  · unfold Point.add
    simp
  · unfold Point.add
    simp only [ne_eq, not_true_eq_false, or_self, if_false]
    match hx : q.x with
    | none =>
      have hy := hq hx
      cases q with
      | mk qx qy qa qb =>
        simp only at hx hy
        subst hx
        subst hy
        rfl
    | some px => rfl

/-- Witness for C7 at the generator. -/
theorem point_add_identity_neutral_witness :
    Point.add ⟨none, none, G.a, G.b⟩ G = some G ∧
    Point.add G ⟨none, none, G.a, G.b⟩ = some G :=
  point_add_identity_neutral G (by decide)

/-- Claim C5: `S256Point.__rmul__` reduces the coefficient modulo the group
order `N` and hands the reduced coefficient to the generic double-and-add; in
particular `N * P` is the identity and `(k + N) * P = k * P`.  No validity
assumption on the point is needed. -/
theorem s256_rmul_reduces_mod_N (p : Point) (k : Int) :
    S256Point.rmul k p = Point.rmul ((k % (N : Int)).toNat) p ∧
    S256Point.rmul (N : Int) p = some ⟨none, none, p.a, p.b⟩ ∧
    S256Point.rmul (k + (N : Int)) p = S256Point.rmul k p := by
  refine ⟨rfl, ?_, ?_⟩
  · show Point.rmul (((N : Int) % (N : Int)).toNat) p = _
    rw [Int.emod_self]
    rfl
  · show Point.rmul (((k + (N : Int)) % (N : Int)).toNat) p
      = Point.rmul ((k % (N : Int)).toNat) p
    have : (k + (N : Int)) % (N : Int) = k % (N : Int) := by
      rw [show k + (N : Int) = k + (N : Int) * 1 by ring, Int.add_mul_emod_self_left]
    rw [this]

/-- Claim C2 (the low-s bug): the normalization step of `PrivateKey.sign`
compares against the float `N / 2 = 2**255`, not the integer `N / 2`.  The
intermediate value `s = 2**255` is returned unchanged although
`2 * 2**255 > N` (so the result violates the documented `s ≤ N/2` bound),
while `s = 2**255 + 1` does get flipped — pinpointing `2**255`, not `N/2`,
as the threshold the code uses. -/
theorem sign_low_s_threshold_is_wrong :
    signNormalizeS (2 ^ 255) = 2 ^ 255 ∧
    N < 2 * 2 ^ 255 ∧
    signNormalizeS (2 ^ 255 + 1) = N - (2 ^ 255 + 1) := by
  refine ⟨?_, by decide, ?_⟩ <;> decide

/-- Claim C8 counterexample: in the prime field GF(2) the Fermat exponent
`prime - 2` is `0`, Python's `pow(0, 0, 2)` is `1`, and `a / zero` returns
`a` itself — not the zero element the claim promises. -/
theorem div_zero_gf2_returns_self :
    FieldElement.div ⟨1, 2⟩ ⟨0, 2⟩ = some ⟨1, 2⟩ ∧
    (⟨1, 2⟩ : FieldElement) ≠ ⟨0, 2⟩ := by decide

/-- Claim C8, amended: for any modulus `≥ 3` (in particular every prime
modulus other than 2), dividing a valid element by the zero element raises no
error and returns the zero element (`0` to a positive power is `0` in the
Fermat-inverse computation). -/
theorem div_zero_returns_zero (a : FieldElement) (p : Nat) (hp : 3 ≤ p)
    (hap : a.prime = p) (ha : a.valid) :
    FieldElement.div a ⟨0, p⟩ = some ⟨0, p⟩ := by
  have hpm : powMod 0 (p - 2) p = 0 := by
    rw [powMod_eq, Nat.zero_pow (by omega), Nat.zero_mod]
  unfold FieldElement.div
  rw [if_neg (by simp [hap])]
  show FieldElement.mk? (a.num * powMod 0 (p - 2) p % a.prime) a.prime = _
  rw [hpm, Nat.mul_zero, Nat.zero_mod, hap, mk?_of_lt (by omega)]

/-- Witness for C8's amended statement in GF(5). -/
theorem div_zero_returns_zero_witness :
    FieldElement.div ⟨2, 5⟩ ⟨0, 5⟩ = some ⟨0, 5⟩ :=
  div_zero_returns_zero ⟨2, 5⟩ 5 (by decide) rfl (by decide)

/-- Claim C9: every arithmetic operation of `FieldElement` (add, sub, mul,
integer scalar multiplication, pow, div), applied to operands satisfying the
representation invariant (same modulus, which the data model takes to be a
prime, hence `≥ 2`), succeeds and returns an element satisfying the invariant
with the same modulus — the constructor's range check never fires on an
operation result. -/
theorem field_ops_preserve_invariant (a b : FieldElement) (c e : Int)
    (ha : a.valid) (hb : b.valid) (hab : a.prime = b.prime) (h2 : 2 ≤ a.prime) :
    (∃ r, a.add b = some r ∧ r.valid ∧ r.prime = a.prime) ∧
    (∃ r, a.sub b = some r ∧ r.valid ∧ r.prime = a.prime) ∧
    (∃ r, a.mul b = some r ∧ r.valid ∧ r.prime = a.prime) ∧
    (∃ r, FieldElement.rmul c a = some r ∧ r.valid ∧ r.prime = a.prime) ∧
    (∃ r, a.pow e = some r ∧ r.valid ∧ r.prime = a.prime) ∧
    (∃ r, a.div b = some r ∧ r.valid ∧ r.prime = a.prime) := by
  have hp0 : 0 < a.prime := by omega
  refine ⟨?_, ?_, ?_, ?_, ?_, ?_⟩
  · refine ⟨⟨(a.num + b.num) % a.prime, a.prime⟩, ?_, Nat.mod_lt _ hp0, rfl⟩
    unfold FieldElement.add
    rw [if_neg (by simp [hab]), mk?_of_lt (Nat.mod_lt _ hp0)]
  · refine ⟨⟨(((a.num : Int) - (b.num : Int)) % (a.prime : Int)).toNat, a.prime⟩,
      ?_, emod_toNat_lt _ hp0, rfl⟩
    unfold FieldElement.sub
    rw [if_neg (by simp [hab]), mk?_of_lt (emod_toNat_lt _ hp0)]
  · refine ⟨⟨a.num * b.num % a.prime, a.prime⟩, ?_, Nat.mod_lt _ hp0, rfl⟩
    unfold FieldElement.mul
    rw [if_neg (by simp [hab]), mk?_of_lt (Nat.mod_lt _ hp0)]
  · refine ⟨⟨(((a.num : Int) * c) % (a.prime : Int)).toNat, a.prime⟩,
      ?_, emod_toNat_lt _ hp0, rfl⟩
    unfold FieldElement.rmul
    rw [mk?_of_lt (emod_toNat_lt _ hp0)]
  · refine ⟨⟨powMod a.num ((e % ((a.prime : Int) - 1)).toNat) a.prime, a.prime⟩,
      ?_, powMod_lt _ _ hp0, rfl⟩
    unfold FieldElement.pow
    rw [if_neg (by omega), mk?_of_lt (powMod_lt _ _ hp0)]
  · refine ⟨⟨a.num * powMod b.num (b.prime - 2) b.prime % a.prime, a.prime⟩,
      ?_, Nat.mod_lt _ hp0, rfl⟩
    unfold FieldElement.div
    rw [if_neg (by simp [hab]), mk?_of_lt (Nat.mod_lt _ hp0)]

/-- Witness for C9 in GF(5) with scalar `3` and exponent `-1`. -/
theorem field_ops_preserve_invariant_witness :
    (∃ r, FieldElement.add ⟨1, 5⟩ ⟨2, 5⟩ = some r ∧ r.valid ∧ r.prime = 5) ∧
    (∃ r, FieldElement.sub ⟨1, 5⟩ ⟨2, 5⟩ = some r ∧ r.valid ∧ r.prime = 5) ∧
    (∃ r, FieldElement.mul ⟨1, 5⟩ ⟨2, 5⟩ = some r ∧ r.valid ∧ r.prime = 5) ∧
    (∃ r, FieldElement.rmul 3 ⟨1, 5⟩ = some r ∧ r.valid ∧ r.prime = 5) ∧
    (∃ r, FieldElement.pow ⟨1, 5⟩ (-1) = some r ∧ r.valid ∧ r.prime = 5) ∧
    (∃ r, FieldElement.div ⟨1, 5⟩ ⟨2, 5⟩ = some r ∧ r.valid ∧ r.prime = 5) :=
  field_ops_preserve_invariant ⟨1, 5⟩ ⟨2, 5⟩ 3 (-1)
    (by decide) (by decide) rfl (by decide)

/-- Claim C10: `S256Point.sec` is defined only for non-identity points: on the
point at infinity the coordinate attribute access raises (for both the
compressed and the uncompressed form), while on any point with both
coordinates present and in range for the fixed 32-byte width (as every valid
coordinate is, being below `P < 2^256`) both forms succeed. -/
theorem sec_identity_fails (p : Point) (xf yf : FieldElement)
    (hx : p.x = some xf) (hy : p.y = some yf)
    (hxlt : xf.num < 2 ^ 256) (hylt : yf.num < 2 ^ 256) :
    (S256Point.sec s256Identity true = none ∧
     S256Point.sec s256Identity false = none) ∧
    ((S256Point.sec p true).isSome ∧ (S256Point.sec p false).isSome) := by
  have hpow : (2 : Nat) ^ 256
      = 115792089237316195423570985008687907853269984665640564039457584007913129639936 := by
    norm_num
  have hx' : xf.num
      < 115792089237316195423570985008687907853269984665640564039457584007913129639936 := by
    omega
  have hy' : yf.num
      < 115792089237316195423570985008687907853269984665640564039457584007913129639936 := by
    omega
  refine ⟨⟨rfl, rfl⟩, ?_, ?_⟩
  · unfold S256Point.sec
    rw [hy, hx]
    by_cases hpar : yf.num % 2 = 0
    · simp [hpar, toBytesBE?, hx']
    · simp [hpar, toBytesBE?, hx']
  · unfold S256Point.sec
    simp only [hx, hy, Bool.false_eq_true, if_false]
    simp [toBytesBE?, hx', hy']

/-- Witness for C10 at the generator. -/
theorem sec_identity_fails_witness :
    (S256Point.sec s256Identity true = none ∧
     S256Point.sec s256Identity false = none) ∧
    ((S256Point.sec G true).isSome ∧ (S256Point.sec G false).isSome) :=
  sec_identity_fails G ⟨Gx, P⟩ ⟨Gy, P⟩ rfl rfl (by decide) (by decide)

/-- Claim C4 counterexample: `S256Point.parse` silently decodes the two-byte
input `[0x05, 0x01]`, whose first byte is not one of `0x02/0x03/0x04` and
whose length is not a valid SEC length: every first byte other than `4`
enters the compressed branch, `is_even = (sec_bin[0] == 2)` treats `5` as
"odd", and the remaining single byte is read as the coordinate `x = 1`.  No
`MalformedSecEncoding` error exists anywhere in the source. -/
theorem parse_decodes_invalid_input :
    S256Point.parse [5, 1] =
      some ⟨some ⟨1, P⟩,
        some ⟨0xbde70df51939b94c9c24979fa7dd04ebd9b3572da7802290438af2a681895441, P⟩,
        s256A, s256B⟩ := by decide

/-- Claim C4, amended: `parse` performs no prefix or length validation at
all.  Any input whose first byte is not `4` is processed by the compressed
branch, and the only effect of the first byte is the parity test
`sec_bin[0] == 2`: every prefix other than `2` and `4` is handled exactly
like the odd-parity prefix `3`, whatever the input length.  (Failures, when
they happen, are generic construction errors, not a dedicated
`MalformedSecEncoding`.) -/
theorem parse_ignores_unknown_prefixes (b0 : Nat) (rest : List Nat)
    (h4 : b0 ≠ 4) (h2 : b0 ≠ 2) :
    S256Point.parse (b0 :: rest) = S256Point.parse (3 :: rest) := by
  simp only [S256Point.parse]
  rw [if_neg h4, if_neg (by norm_num : ¬(3 : Nat) = 4)]
  simp [h2]

/-- Witness for C4's amended statement: prefix `7` decodes like prefix `3`. -/
theorem parse_ignores_unknown_prefixes_witness :
    S256Point.parse [7, 1] = S256Point.parse [3, 1] :=
  parse_ignores_unknown_prefixes 7 [1] (by decide) (by decide)

/-- Claim C6 counterexample: on the input `z = 0`, `sig = (r = 0, s = 1)`,
public point `G`, the reconstructed `total = 0·G + 0·G` is the identity
point, whose `x` is absent; `total.x.num` then raises `AttributeError`, so
`verify` errors instead of returning a boolean. -/
theorem verify_errors_on_identity_total :
    S256Point.verify G 0 ⟨0, 1⟩ = none := by decide

/-- Claim C6, amended: whenever the reconstructed point
`total = u·G + v·publicPoint` exists and is not the identity, `verify`
returns the boolean `total.x.num == r`; when `total` is the identity (no
x-coordinate), `verify` raises instead of returning a result. -/
theorem verify_eq_x_matches (p : Point) (z : Nat) (sig : Signature) (t : Point)
    (ht : S256Point.verifyTotal p z sig = some t) :
    (t.x = none → S256Point.verify p z sig = none) ∧
    (∀ xf, t.x = some xf →
      S256Point.verify p z sig = some (xf.num == sig.r)) := by
  unfold S256Point.verify
  rw [ht]
  constructor
  · intro h
    simp [h]
  · intro xf h
    simp [h]

/-- Witness for C6's amended statement: `z = 1`, `sig = (0, 1)` against `G`
reconstructs `total = 1·G + 0·G = G`, and `verify` returns
`G.x.num == 0` (that is, `false`). -/
theorem verify_eq_x_matches_witness :
    S256Point.verify G 1 ⟨0, 1⟩ = some (Gx == 0) :=
  (verify_eq_x_matches G 1 ⟨0, 1⟩ G (by decide)).2 ⟨Gx, P⟩ rfl

/-! ## Byte-string round trips -/

theorem toBytesBE_length (n len : Nat) : (toBytesBE n len).length = len := by
  induction len generalizing n with
  | zero => rfl
  | succ len' ih =>
    rw [toBytesBE]
    simp [ih]

theorem fromBytesBE_append_byte (l : List Nat) (b : Nat) :
    fromBytesBE (l ++ [b]) = fromBytesBE l * 256 + b := by
  unfold fromBytesBE
  rw [List.foldl_append]
  rfl

theorem fromBytesBE_toBytesBE (n len : Nat) (h : n < 256 ^ len) :
    fromBytesBE (toBytesBE n len) = n := by
  induction len generalizing n with
  | zero =>
    simp [Nat.pow_zero] at h
    simp [h, toBytesBE, fromBytesBE]
  | succ len' ih =>
    rw [toBytesBE, fromBytesBE_append_byte, ih (n / 256) ?_]
    · have := Nat.div_add_mod n 256
      omega
    · rw [Nat.pow_succ] at h
      exact Nat.div_lt_of_lt_mul (by omega)

/-! ## Characterization of the validated S256 constructors -/

theorem pow_eq_powMod (a : FieldElement) (e : Int) (en : Nat) (he : e = (en : Int))
    (h1 : 1 < a.prime) (h2 : en < a.prime - 1) :
    a.pow e = FieldElement.mk? (powMod a.num en a.prime) a.prime := by
  unfold FieldElement.pow
  rw [if_neg (by omega), he]
  have hcast : ((a.prime - 1 : Nat) : Int) = (a.prime : Int) - 1 := by
    push_cast [Nat.cast_sub (by omega : 1 ≤ a.prime)]
    ring
  have hmod : ((en : Int) % ((a.prime : Int) - 1)) = (en : Int) := by
    apply Int.emod_eq_of_lt (by positivity)
    rw [← hcast]
    exact_mod_cast h2
  rw [hmod, Int.toNat_natCast]

theorem P_pos : 0 < P := by decide

theorem point_mk?_s256 (xn yn : Nat) (hx : xn < P) (hy : yn < P) :
    Point.mk? (some ⟨xn, P⟩) (some ⟨yn, P⟩) s256A s256B =
      if powMod yn 2 P = (powMod xn 3 P + 7) % P
      then some ⟨some ⟨xn, P⟩, some ⟨yn, P⟩, s256A, s256B⟩ else none := by
  have hX3 : powMod xn 3 P < P := powMod_lt _ _ P_pos
  have hY2 : powMod yn 2 P < P := powMod_lt _ _ P_pos
  have hmul : FieldElement.mul s256A ⟨xn, P⟩ = some ⟨0, P⟩ := by
    unfold FieldElement.mul
    rw [if_neg (fun h => h rfl)]
    show FieldElement.mk? (0 * xn % P) P = _
    rw [Nat.zero_mul, Nat.zero_mod, mk?_of_lt P_pos]
  have hadd1 : FieldElement.add ⟨powMod xn 3 P, P⟩ ⟨0, P⟩ = some ⟨powMod xn 3 P, P⟩ := by
    unfold FieldElement.add
    rw [if_neg (fun h => h rfl)]
    show FieldElement.mk? ((powMod xn 3 P + 0) % P) P = _
    rw [Nat.add_zero, Nat.mod_eq_of_lt hX3, mk?_of_lt hX3]
  have hadd2 : FieldElement.add ⟨powMod xn 3 P, P⟩ s256B
      = some ⟨(powMod xn 3 P + 7) % P, P⟩ := by
    unfold FieldElement.add
    rw [if_neg (fun h => h rfl)]
    show FieldElement.mk? ((powMod xn 3 P + 7) % P) P = _
    rw [mk?_of_lt (Nat.mod_lt _ P_pos)]
  simp only [Point.mk?]
  rw [pow_eq_powMod ⟨yn, P⟩ 2 2 rfl (show 1 < P by decide) (show 2 < P - 1 by decide),
    pow_eq_powMod ⟨xn, P⟩ 3 3 rfl (show 1 < P by decide) (show 3 < P - 1 by decide)]
  simp only [Option.bind_eq_bind]
  rw [mk?_of_lt hY2, Option.some_bind]
  rw [mk?_of_lt hX3, Option.some_bind]
  rw [hmul, Option.some_bind]
  rw [hadd1, Option.some_bind]
  rw [hadd2, Option.some_bind]
  by_cases hc : powMod yn 2 P = (powMod xn 3 P + 7) % P
  · rw [if_pos (by rw [hc]), if_pos hc]
  · rw [if_neg (fun h => hc (congrArg FieldElement.num h)), if_neg hc]

theorem mkFromNums?_some {xn yn : Nat} {pt : Point}
    (h : S256Point.mkFromNums? xn yn = some pt) :
    xn < P ∧ yn < P ∧ powMod yn 2 P = (powMod xn 3 P + 7) % P ∧
    pt = ⟨some ⟨xn, P⟩, some ⟨yn, P⟩, s256A, s256B⟩ := by
  unfold S256Point.mkFromNums? S256Field.mk? FieldElement.mk? at h
  rw [Option.bind_eq_bind] at h
  by_cases hx : xn < P
  · rw [if_pos hx, Option.some_bind] at h
    by_cases hy : yn < P
    · rw [if_pos hy, Option.some_bind] at h
      rw [point_mk?_s256 xn yn hx hy] at h
      by_cases hcv : powMod yn 2 P = (powMod xn 3 P + 7) % P
      · rw [if_pos hcv] at h
        exact ⟨hx, hy, hcv, (Option.some_injective _ h).symm⟩
      · rw [if_neg hcv] at h
        exact absurd h (by simp)
    · rw [if_neg hy, Option.none_bind] at h
      exact absurd h (by simp)
  · rw [if_neg hx, Option.none_bind] at h
    exact absurd h (by simp)

/-! ## Square roots modulo `P`

What the compressed-SEC round trip needs: every valid point has `y ≠ 0`
(equivalently, `x³ + 7` has no root `y = 0`, i.e. `-7` is not a cube mod `P`,
checked by a Fermat-style exponentiation), and `alpha^((P+1)/4)` is `±y`
when `alpha = y²`. -/

theorem natCast_powMod (a e : ℕ) :
    ((powMod a e P : ℕ) : ZMod P) = ((a : ZMod P)) ^ e := by
  haveI : NeZero P := ⟨by decide⟩
  rw [zmod_pow_natCast]

theorem natCast_inj_of_lt {a b : ℕ} (ha : a < P) (hb : b < P)
    (h : ((a : ℕ) : ZMod P) = ((b : ℕ) : ZMod P)) : a = b := by
  haveI : NeZero P := ⟨by decide⟩
  have hv := congrArg ZMod.val h
  rwa [ZMod.val_natCast_of_lt ha, ZMod.val_natCast_of_lt hb] at hv

/-- `-7` is not a cube modulo `P`: otherwise Fermat would force the explicit
Fermat-quotient power of `-7` to be `1`, and a kernel computation shows it is
not.  Hence no point of the curve `y² = x³ + 7` has `y = 0`. -/
theorem cube_ne_neg7 (x : ZMod P) : x ^ 3 ≠ -7 := by
  haveI : Fact (Nat.Prime P) := ⟨P_prime⟩
  intro hEq
  have hx0 : x ≠ 0 := by
    intro h0
    rw [h0, zero_pow (by norm_num)] at hEq
    have h7 : ((7 : ℕ) : ZMod P) = 0 := by
      push_cast
      linear_combination hEq
    have hdvd : P ∣ 7 := (ZMod.natCast_zmod_eq_zero_iff_dvd 7 P).mp h7
    have hle : P ≤ 7 := Nat.le_of_dvd (by norm_num) hdvd
    exact absurd hle (by decide)
  have hfer : x ^ (P - 1) = 1 := ZMod.pow_card_sub_one_eq_one hx0
  have h3 : (3 : ℕ) ∣ P - 1 := by decide
  have h1 : ((-7 : ZMod P)) ^ ((P - 1) / 3) = 1 := by
    calc ((-7 : ZMod P)) ^ ((P - 1) / 3)
        = (x ^ 3) ^ ((P - 1) / 3) := by rw [hEq]
      _ = x ^ (3 * ((P - 1) / 3)) := (pow_mul x 3 _).symm
      _ = x ^ (P - 1) := by rw [Nat.mul_div_cancel' h3]
      _ = 1 := hfer
  have hcast : ((P - 7 : ℕ) : ZMod P) = -7 := by
    rw [Nat.cast_sub (by decide : (7 : ℕ) ≤ P), ZMod.natCast_self]
    push_cast
    ring
  rw [← hcast, ← natCast_powMod] at h1
  have h1n : powMod (P - 7) ((P - 1) / 3) P = 1 :=
    natCast_inj_of_lt (powMod_lt _ _ P_pos) (by decide) (by rw [h1]; push_cast; rfl)
  exact absurd h1n (by decide)

/-- The principal-root computation of `S256Field.sqrt` applied to a square:
`(y²)^((P+1)/4)` is `y` or `-y`. -/
theorem sqrt_of_square (y : ZMod P) (hy : y ≠ 0) :
    (y ^ 2) ^ ((P + 1) / 4) = y ∨ (y ^ 2) ^ ((P + 1) / 4) = -y := by
  haveI : Fact (Nat.Prime P) := ⟨P_prime⟩
  have h4 : 4 * ((P + 1) / 4) = P + 1 := Nat.mul_div_cancel' (by decide)
  have hsq : ((y ^ 2) ^ ((P + 1) / 4)) ^ 2 = y ^ 2 := by
    rw [← pow_mul, ← pow_mul, show 2 * ((P + 1) / 4 * 2) = P + 1 by omega,
      show P + 1 = (P - 1) + 2 by have := P_pos; omega, pow_add,
      ZMod.pow_card_sub_one_eq_one hy, one_mul]
  have hdiff : ((y ^ 2) ^ ((P + 1) / 4) - y) * ((y ^ 2) ^ ((P + 1) / 4) + y) = 0 := by
    linear_combination hsq
  rcases mul_eq_zero.mp hdiff with h | h
  · exact Or.inl (by linear_combination h)
  · exact Or.inr (by linear_combination h)

/-! ## The SEC round trip (claim C3) -/

theorem fe_add_lit (u v : Nat) :
    FieldElement.add ⟨u, P⟩ ⟨v, P⟩ = some ⟨(u + v) % P, P⟩ := by
  unfold FieldElement.add
  rw [if_neg (fun h => h rfl)]
  exact mk?_of_lt (Nat.mod_lt _ P_pos)

theorem take_32_append (l1 l2 : List Nat) (h : l1.length = 32) :
    (l1 ++ l2).take 32 = l1 := by
  rw [← h, List.take_left]

theorem drop_32_append (l1 l2 : List Nat) (h : l1.length = 32) :
    (l1 ++ l2).drop 32 = l2 := by
  rw [← h, List.drop_left]

theorem take_32_self (l : List Nat) (h : l.length = 32) : l.take 32 = l := by
  rw [← h, List.take_length]

theorem P_lt_256_pow_32 : P < 256 ^ 32 := by decide

/-- Evaluation of the compressed branch of `S256Point.parse` on
`prefix ++ x`, given what the number theory provides: the square-root
computation lands on `yn` or on `P - yn`.  The parity selection then always
reconstructs exactly `yn`. -/
theorem parse_compressed (xn yn : Nat) (hx : xn < P) (hy0 : 0 < yn) (hy : yn < P)
    (hcv : powMod yn 2 P = (powMod xn 3 P + 7) % P)
    (hBn : powMod ((powMod xn 3 P + 7) % P) ((P + 1) / 4) P = yn ∨
           powMod ((powMod xn 3 P + 7) % P) ((P + 1) / 4) P = P - yn) :
    S256Point.parse ((if yn % 2 = 0 then 2 else 3) :: toBytesBE xn 32)
      = some ⟨some ⟨xn, P⟩, some ⟨yn, P⟩, s256A, s256B⟩ := by
  have hx256 : xn < 256 ^ 32 := lt_trans hx P_lt_256_pow_32
  have hP2 : P % 2 = 1 := by decide
  have hmkx : S256Field.mk? (fromBytesBE (toBytesBE xn 32)) = some ⟨xn, P⟩ := by
    rw [fromBytesBE_toBytesBE xn 32 hx256]
    unfold S256Field.mk?
    exact mk?_of_lt hx
  have hmkB : S256Field.mk? B = some ⟨7, P⟩ := by decide
  have hsqrt : S256Field.sqrt ⟨(powMod xn 3 P + 7) % P, P⟩
      = some ⟨powMod ((powMod xn 3 P + 7) % P) ((P + 1) / 4) P, P⟩ := by
    unfold S256Field.sqrt
    rw [pow_eq_powMod _ _ ((P + 1) / 4) rfl (show 1 < P by decide)
      (show (P + 1) / 4 < P - 1 by decide)]
    exact mk?_of_lt (powMod_lt _ _ P_pos)
  have hmky : S256Field.mk? yn = some ⟨yn, P⟩ := by
    unfold S256Field.mk?
    exact mk?_of_lt hy
  have hmkPy : S256Field.mk? (P - yn) = some ⟨P - yn, P⟩ := by
    unfold S256Field.mk?
    exact mk?_of_lt (by omega)
  have hfin : S256Point.mkFromFields? (some ⟨xn, P⟩) (some ⟨yn, P⟩)
      = some ⟨some ⟨xn, P⟩, some ⟨yn, P⟩, s256A, s256B⟩ := by
    unfold S256Point.mkFromFields?
    rw [point_mk?_s256 xn yn hx hy, if_pos hcv]
  by_cases hp2 : yn % 2 = 0
  · rw [if_pos hp2]
    simp only [S256Point.parse]
    rw [if_neg (by norm_num : ¬(2 : Nat) = 4)]
    simp only [Option.bind_eq_bind, Option.pure_def]
    rw [hmkx, Option.some_bind]
    rw [pow_eq_powMod ⟨xn, P⟩ 3 3 rfl (show 1 < P by decide) (show 3 < P - 1 by decide),
      mk?_of_lt (powMod_lt _ _ P_pos), Option.some_bind]
    rw [hmkB, Option.some_bind]
    rw [fe_add_lit, Option.some_bind]
    rw [hsqrt, Option.some_bind]
    rcases hBn with hB | hB
    · rw [hB, if_pos (show yn % 2 = 0 from hp2)]
      rw [hmkPy, Option.some_bind, Option.some_bind, if_pos trivial]
      exact hfin
    · rw [hB, if_neg (show ¬(P - yn) % 2 = 0 by omega)]
      rw [show P - (P - yn) = yn by omega]
      rw [hmky, Option.some_bind, Option.some_bind, if_pos trivial]
      exact hfin
  · rw [if_neg hp2]
    simp only [S256Point.parse]
    rw [if_neg (by norm_num : ¬(3 : Nat) = 4)]
    simp only [Option.bind_eq_bind, Option.pure_def]
    rw [hmkx, Option.some_bind]
    rw [pow_eq_powMod ⟨xn, P⟩ 3 3 rfl (show 1 < P by decide) (show 3 < P - 1 by decide),
      mk?_of_lt (powMod_lt _ _ P_pos), Option.some_bind]
    rw [hmkB, Option.some_bind]
    rw [fe_add_lit, Option.some_bind]
    rw [hsqrt, Option.some_bind]
    rcases hBn with hB | hB
    · rw [hB, if_neg (show ¬yn % 2 = 0 from hp2)]
      rw [hmkPy, Option.some_bind, Option.some_bind, if_neg (by norm_num : ¬(3 : Nat) = 2)]
      exact hfin
    · rw [hB, if_pos (show (P - yn) % 2 = 0 by omega)]
      rw [show P - (P - yn) = yn by omega]
      rw [hmky, Option.some_bind, Option.some_bind, if_neg (by norm_num : ¬(3 : Nat) = 2)]
      exact hfin

/-- Claim C3: for every valid non-identity secp256k1 point — i.e. every point
the validating `S256Point(x, y)` constructor accepts — SEC serialization
round-trips through parsing, in compressed and in uncompressed form. -/
theorem sec_parse_roundtrip (xn yn : Nat) (pt : Point)
    (hpt : S256Point.mkFromNums? xn yn = some pt) :
    (S256Point.sec pt true).bind S256Point.parse = some pt ∧
    (S256Point.sec pt false).bind S256Point.parse = some pt := by
  obtain ⟨hx, hy, hcv, hpt_eq⟩ := mkFromNums?_some hpt
  subst hpt_eq
  haveI : Fact (Nat.Prime P) := ⟨P_prime⟩
  haveI : NeZero P := ⟨by decide⟩
  have hx256 : xn < 256 ^ 32 := lt_trans hx P_lt_256_pow_32
  have hy256 : yn < 256 ^ 32 := lt_trans hy P_lt_256_pow_32
  have hxbE : toBytesBE? xn 32 = some (toBytesBE xn 32) := by
    unfold toBytesBE?
    rw [if_pos hx256]
  have hybE : toBytesBE? yn 32 = some (toBytesBE yn 32) := by
    unfold toBytesBE?
    rw [if_pos hy256]
  have hyn0 : yn ≠ 0 := by
    intro h0
    subst h0
    have h02 : powMod 0 2 P = 0 := by decide
    rw [h02] at hcv
    have hc0 : (((powMod xn 3 P + 7) % P : ℕ) : ZMod P) = 0 := by
      rw [← hcv]
      exact Nat.cast_zero
    rw [ZMod.natCast_mod, Nat.cast_add, natCast_powMod] at hc0
    apply cube_ne_neg7 ((xn : ZMod P))
    push_cast at hc0
    linear_combination hc0
  have hcurve : ((yn : ZMod P)) ^ 2 = ((xn : ZMod P)) ^ 3 + 7 := by
    have hc := congrArg (fun n : ℕ => ((n : ℕ) : ZMod P)) hcv
    simp only at hc
    rw [natCast_powMod, ZMod.natCast_mod, Nat.cast_add, natCast_powMod] at hc
    push_cast at hc
    exact hc
  have hyZ : ((yn : ZMod P)) ≠ 0 := by
    intro h0
    have hv := congrArg ZMod.val h0
    rw [ZMod.val_natCast_of_lt hy, ZMod.val_zero] at hv
    exact hyn0 hv
  have hBlt : powMod ((powMod xn 3 P + 7) % P) ((P + 1) / 4) P < P := powMod_lt _ _ P_pos
  have hBcast : ((powMod ((powMod xn 3 P + 7) % P) ((P + 1) / 4) P : ℕ) : ZMod P)
      = (((yn : ZMod P)) ^ 2) ^ ((P + 1) / 4) := by
    rw [natCast_powMod, ZMod.natCast_mod, Nat.cast_add, natCast_powMod]
    push_cast
    rw [← hcurve]
  have hBn : powMod ((powMod xn 3 P + 7) % P) ((P + 1) / 4) P = yn ∨
      powMod ((powMod xn 3 P + 7) % P) ((P + 1) / 4) P = P - yn := by
    rcases sqrt_of_square ((yn : ZMod P)) hyZ with h | h
    · exact Or.inl (natCast_inj_of_lt hBlt hy (by rw [hBcast, h]))
    · refine Or.inr (natCast_inj_of_lt hBlt (by omega) ?_)
      rw [hBcast, h, Nat.cast_sub (le_of_lt hy), ZMod.natCast_self]
      ring
  constructor
  · have hsec : S256Point.sec ⟨some ⟨xn, P⟩, some ⟨yn, P⟩, s256A, s256B⟩ true
        = some ((if yn % 2 = 0 then 2 else 3) :: toBytesBE xn 32) := by
      simp only [S256Point.sec]
      rw [if_pos trivial]
      simp only [Option.bind_eq_bind, Option.pure_def]
      by_cases hp2 : yn % 2 = 0
      · rw [if_pos hp2, if_pos hp2, hxbE, Option.some_bind]
      · rw [if_neg hp2, if_neg hp2, hxbE, Option.some_bind]
    rw [hsec, Option.some_bind]
    exact parse_compressed xn yn hx (by omega) hy hcv hBn
  · have hsec : S256Point.sec ⟨some ⟨xn, P⟩, some ⟨yn, P⟩, s256A, s256B⟩ false
        = some (4 :: (toBytesBE xn 32 ++ toBytesBE yn 32)) := by
      simp only [S256Point.sec]
      rw [if_neg (by simp : ¬false = true)]
      simp only [Option.bind_eq_bind, Option.pure_def]
      rw [hxbE, Option.some_bind, hybE, Option.some_bind]
    rw [hsec, Option.some_bind]
    simp only [S256Point.parse]
    rw [if_pos trivial]
    rw [take_32_append _ _ (toBytesBE_length xn 32),
      drop_32_append _ _ (toBytesBE_length xn 32),
      take_32_self _ (toBytesBE_length yn 32),
      fromBytesBE_toBytesBE xn 32 hx256, fromBytesBE_toBytesBE yn 32 hy256]
    exact hpt

/-- Witness for C3 at the generator `G`. -/
theorem sec_parse_roundtrip_witness :
    (S256Point.sec G true).bind S256Point.parse = some G ∧
    (S256Point.sec G false).bind S256Point.parse = some G :=
  sec_parse_roundtrip Gx Gy G G_def

end ECC
